import Mathlib

/-!
Shallow embedding of `src/math/python/linear_algebra.py` (library of linear
algebra functions mirroring `linear_algebra.scad`).

Modelling choices:
* A homogeneous point `p = [x, y, z, w]` is a structure of four real numbers.
* The floating-point "undefined" sentinel `np.nan` is modelled as `none` of
  `Option ℝ`; a proper value `v` is `some v`.  Functions that can return the
  sentinel have result type `Option ℝ`; those that never do return `ℝ`.
* `np.arctan2 y x` is the mathematical two-argument arctangent, i.e. the
  argument of the complex number `x + y·i`, with range `(-π, π]` (on the reals
  there is no negative zero, so the `-π` branch of IEEE atan2 is unreachable).
* Python's float `%` with positive divisor is floor-division remainder:
  `a % 360 = a - 360 * ⌊a / 360⌋`.
* Arrays are Lean lists; the list comprehensions of the source become
  `List.map`.
-/

namespace LinAlg

/-- Homogeneous point `[x, y, z, w]`; `p[0] = x`, `p[1] = y`, `p[2] = z`,
`p[3] = w`. -/
structure Point where
  x : ℝ
  y : ℝ
  z : ℝ
  w : ℝ

/-- `f_eps = 1e-10`: floating point value considered equal to 0
(from `common.scad`). -/
noncomputable def f_eps : ℝ := 1e-10

/-- `np.arctan2(b, a)`: angle of the point `(a, b)` in the plane, modelled as
the argument of the complex number `a + b·i`, in `(-π, π]`. -/
noncomputable def arctan2 (b a : ℝ) : ℝ := Complex.arg ⟨a, b⟩

/-- `np.degrees`: radians to degrees. -/
noncomputable def degrees (a : ℝ) : ℝ := a * 180 / Real.pi

/-- `np.radians`: degrees to radians. -/
noncomputable def radians (angle : ℝ) : ℝ := angle * Real.pi / 180

/-- `Trans(x, y, z)`: translate by `[x, y, z]`. -/
noncomputable def Trans (x y z : ℝ) : Matrix (Fin 4) (Fin 4) ℝ :=
  Matrix.of ![![1, 0, 0, x],
              ![0, 1, 0, y],
              ![0, 0, 1, z],
              ![0, 0, 0, 1]]

/-- `Rot_yz(angle)`: rotate around x-axis from y to z. -/
noncomputable def Rot_yz (angle : ℝ) : Matrix (Fin 4) (Fin 4) ℝ :=
  let a := radians angle
  let co := Real.cos a
  let si := Real.sin a
  Matrix.of ![![1, 0, 0, 0],
              ![0, co, -si, 0],
              ![0, si, co, 0],
              ![0, 0, 0, 1]]

/-- `Rot_zx(angle)`: rotate around y-axis from z to x. -/
noncomputable def Rot_zx (angle : ℝ) : Matrix (Fin 4) (Fin 4) ℝ :=
  let a := radians angle
  let co := Real.cos a
  let si := Real.sin a
  Matrix.of ![![co, 0, si, 0],
              ![0, 1, 0, 0],
              ![-si, 0, co, 0],
              ![0, 0, 0, 1]]

/-- `Rot_xy(angle)`: rotate around z-axis from x to y. -/
noncomputable def Rot_xy (angle : ℝ) : Matrix (Fin 4) (Fin 4) ℝ :=
  let a := radians angle
  let co := Real.cos a
  let si := Real.sin a
  Matrix.of ![![co, -si, 0, 0],
              ![si, co, 0, 0],
              ![0, 0, 1, 0],
              ![0, 0, 0, 1]]

/-- `fAngleYZ(p)`: roll angle from y to z around x-axis. -/
noncomputable def fAngleYZ (p : Point) : Option ℝ :=
  if |p.y| < f_eps ∧ |p.z| < f_eps then none
  else some (degrees (arctan2 p.z p.y))

/-- `fAngleZX(p)`: pitch angle from z to x around y-axis. -/
noncomputable def fAngleZX (p : Point) : Option ℝ :=
  if |p.x| < f_eps ∧ |p.z| < f_eps then none
  else some (degrees (arctan2 p.x p.z))

/-- `fAngleXY(p)`: jaw angle from x to y around z-axis. -/
noncomputable def fAngleXY (p : Point) : Option ℝ :=
  if |p.x| < f_eps ∧ |p.y| < f_eps then none
  else some (degrees (arctan2 p.y p.x))

/-- `fAngleArrYZ`: roll angles from y to z around x-axis. -/
noncomputable def fAngleArrYZ (angleArr : List Point) : List (Option ℝ) :=
  angleArr.map fAngleYZ

/-- `fAngleArrZX`: pitch angles from z to x around y-axis. -/
noncomputable def fAngleArrZX (angleArr : List Point) : List (Option ℝ) :=
  angleArr.map fAngleZX

/-- `fAngleArrXY`: jaw angles from x to y around z-axis. -/
noncomputable def fAngleArrXY (angleArr : List Point) : List (Option ℝ) :=
  angleArr.map fAngleXY

/-- `fAngleXR(p)`: angle from x to r around origin. -/
noncomputable def fAngleXR (p : Point) : ℝ :=
  degrees (arctan2 (Real.sqrt (p.z ^ 2 + p.y ^ 2)) p.x)

/-- `fAngleYR(p)`: angle from y to r around origin. -/
noncomputable def fAngleYR (p : Point) : ℝ :=
  degrees (arctan2 (Real.sqrt (p.z ^ 2 + p.x ^ 2)) p.y)

/-- `fAngleZR(p)`: angle from z to r around origin. -/
noncomputable def fAngleZR (p : Point) : ℝ :=
  degrees (arctan2 (Real.sqrt (p.x ^ 2 + p.y ^ 2)) p.z)

/-- `fAngleArrXR`: angles from x to r around x-axis. -/
noncomputable def fAngleArrXR (angleArr : List Point) : List ℝ :=
  angleArr.map fAngleXR

/-- `fAngleArrYR`: angles from y to r around y-axis. -/
noncomputable def fAngleArrYR (angleArr : List Point) : List ℝ :=
  angleArr.map fAngleYR

/-- `fAngleArrZR`: angles from z to r around z-axis. -/
noncomputable def fAngleArrZR (angleArr : List Point) : List ℝ :=
  angleArr.map fAngleZR

/-- `toAngle360(angle)`: map angle to range [0, 360> degrees.  The source
first checks `np.isnan(angle)` and returns `np.nan`; the modulo `% 360` is
floor-division remainder; the `a < 0` correction branch of the source is kept
verbatim. -/
noncomputable def toAngle360 (angle : Option ℝ) : Option ℝ :=
  match angle with
  | none => none
  | some x =>
    let a := x - 360 * ⌊x / 360⌋
    if a < 0 then some (a + 360) else some a

/-- `toAngle180(angle)`: map angle to range <-180, 180] degrees.  The source
computes `a = toAngle360(angle)` and subtracts 360 when `a > 180`; a NaN `a`
compares false and falls through unchanged, which the `none` branch models. -/
noncomputable def toAngle180 (angle : Option ℝ) : Option ℝ :=
  match toAngle360 angle with
  | none => none
  | some a => if 180 < a then some (a - 360) else some a

/-- `toAngleArr360`: map array of angles to range [0, 360> degrees. -/
noncomputable def toAngleArr360 (angleArr : List (Option ℝ)) : List (Option ℝ) :=
  angleArr.map toAngle360

/-- `toAngleArr180`: map array of angles to range <-180, 180] degrees. -/
noncomputable def toAngleArr180 (angleArr : List (Option ℝ)) : List (Option ℝ) :=
  angleArr.map toAngle180

/-! Helper lemmas about the floor-division remainder used by `toAngle360`. -/

lemma mod360_nonneg (x : ℝ) : 0 ≤ x - 360 * ⌊x / 360⌋ := by
  have h := Int.floor_le (x / 360)
  have h2 : (360 : ℝ) * ⌊x / 360⌋ ≤ 360 * (x / 360) :=
    mul_le_mul_of_nonneg_left h (by norm_num)
  have h3 : (360 : ℝ) * (x / 360) = x := by ring
  linarith

lemma mod360_lt (x : ℝ) : x - 360 * ⌊x / 360⌋ < 360 := by
  have h := Int.lt_floor_add_one (x / 360)
  have h2 : (360 : ℝ) * (x / 360) < 360 * (⌊x / 360⌋ + 1) :=
    mul_lt_mul_of_pos_left h (by norm_num)
  have h3 : (360 : ℝ) * (x / 360) = x := by ring
  linarith

/-- On a proper value the `a < 0` correction branch of `toAngle360` is dead:
the floor-division remainder is already non-negative. -/
lemma toAngle360_some (x : ℝ) :
    toAngle360 (some x) = some (x - 360 * ⌊x / 360⌋) := by
  unfold toAngle360
  simp only []
  rw [if_neg (not_lt.mpr (mod360_nonneg x))]

lemma toAngle180_unfold (x : ℝ) :
    toAngle180 (some x) =
      if 180 < x - 360 * ⌊x / 360⌋ then some (x - 360 * ⌊x / 360⌋ - 360)
      else some (x - 360 * ⌊x / 360⌋) := by
  unfold toAngle180
  rw [toAngle360_some]

lemma toAngle180_some_bounds (x : ℝ) :
    ∃ b, toAngle180 (some x) = some b ∧
      b = (if 180 < x - 360 * ⌊x / 360⌋ then x - 360 * ⌊x / 360⌋ - 360
           else x - 360 * ⌊x / 360⌋) ∧
      -180 < b ∧ b ≤ 180 := by
  refine ⟨_, ?_, rfl, ?_, ?_⟩
  · rw [toAngle180_unfold]
    split_ifs <;> rfl
  · have h0 := mod360_nonneg x
    split_ifs with h <;> linarith
  · have h1 := mod360_lt x
    split_ifs with h <;> linarith

/-- A value already in `[0, 360)` is a fixed point of `toAngle360`. -/
lemma toAngle360_fixed (a : ℝ) (h0 : 0 ≤ a) (h1 : a < 360) :
    toAngle360 (some a) = some a := by
  rw [toAngle360_some]
  have hf : ⌊a / 360⌋ = (0 : ℤ) := by
    rw [Int.floor_eq_iff]
    constructor
    · push_cast
      positivity
    · push_cast
      have h2 : a / 360 < 1 := (div_lt_one (by norm_num : (0:ℝ) < 360)).mpr h1
      linarith
  rw [hf]
  norm_num

/-- A value already in `(-180, 180]` is a fixed point of `toAngle180`. -/
lemma toAngle180_fixed (b : ℝ) (hl : -180 < b) (hr : b ≤ 180) :
    toAngle180 (some b) = some b := by
  rw [toAngle180_unfold]
  rcases le_or_lt 0 b with hb | hb
  · have hf : ⌊b / 360⌋ = (0 : ℤ) := by
      rw [Int.floor_eq_iff]
      constructor
      · push_cast
        positivity
      · push_cast
        linarith [div_nonneg hb (by norm_num : (0:ℝ) ≤ 360),
          (div_lt_one (by norm_num : (0:ℝ) < 360)).mpr
            (by linarith : b < 360)]
    rw [hf]
    push_cast
    rw [mul_zero, sub_zero, if_neg (not_lt.mpr hr)]
  · have hf : ⌊b / 360⌋ = (-1 : ℤ) := by
      rw [Int.floor_eq_iff]
      constructor
      · push_cast
        rw [le_div_iff₀ (by norm_num : (0:ℝ) < 360)]
        linarith
      · push_cast
        rw [div_lt_iff₀ (by norm_num : (0:ℝ) < 360)]
        linarith
    rw [hf]
    push_cast
    rw [if_pos (by linarith), show b - 360 * (-1) - 360 = b by ring]

/-- C4: `toAngle360` maps every finite angle into `[0, 360)`, congruent to the
input modulo 360 (mathematical modulus, via the floor-division remainder with
the negative-result correction), and takes the stated values at
360, -1, -181, -180 and 180. -/
theorem toAngle360_range_cong :
    (∀ θ : ℝ, ∃ a, toAngle360 (some θ) = some a ∧ 0 ≤ a ∧ a < 360 ∧
      ∃ k : ℤ, θ - a = 360 * k) ∧
    toAngle360 (some 360) = some 0 ∧
    toAngle360 (some (-1)) = some 359 ∧
    toAngle360 (some (-181)) = some 179 ∧
    toAngle360 (some (-180)) = some 180 ∧
    toAngle360 (some 180) = some 180 := by
  refine ⟨fun θ => ⟨θ - 360 * ⌊θ / 360⌋, toAngle360_some θ, mod360_nonneg θ,
    mod360_lt θ, ⟨⌊θ / 360⌋, by ring⟩⟩, ?_, ?_, ?_, ?_, ?_⟩
  · rw [toAngle360_some,
      show ⌊(360 : ℝ) / 360⌋ = (1 : ℤ) from Int.floor_eq_iff.mpr (by norm_num)]
    norm_num
  · rw [toAngle360_some,
      show ⌊(-1 : ℝ) / 360⌋ = (-1 : ℤ) from Int.floor_eq_iff.mpr (by norm_num)]
    norm_num
  · rw [toAngle360_some,
      show ⌊(-181 : ℝ) / 360⌋ = (-1 : ℤ) from Int.floor_eq_iff.mpr (by norm_num)]
    norm_num
  · rw [toAngle360_some,
      show ⌊(-180 : ℝ) / 360⌋ = (-1 : ℤ) from Int.floor_eq_iff.mpr (by norm_num)]
    norm_num
  · rw [toAngle360_some,
      show ⌊(180 : ℝ) / 360⌋ = (0 : ℤ) from Int.floor_eq_iff.mpr (by norm_num)]
    norm_num

/-- C5: `toAngle180` first applies `toAngle360`, subtracts 360 exactly when
that result exceeds 180, and lands in `(-180, 180]`. -/
theorem toAngle180_range :
    ∀ θ : ℝ, ∃ a b, toAngle360 (some θ) = some a ∧
      toAngle180 (some θ) = some b ∧
      b = (if 180 < a then a - 360 else a) ∧ -180 < b ∧ b ≤ 180 := by
  intro θ
  obtain ⟨b, hb, hbeq, hbl, hbr⟩ := toAngle180_some_bounds θ
  exact ⟨θ - 360 * ⌊θ / 360⌋, b, toAngle360_some θ, hb, hbeq, hbl, hbr⟩

/-- C6: both normalizers pass the undefined sentinel through unchanged;
`toAngle360` special-cases it before the modulo (the `none` match branch),
and `toAngle180` lets it fall through its comparison. -/
theorem toAngle_nan_passthrough :
    toAngle360 none = none ∧ toAngle180 none = none :=
  ⟨rfl, rfl⟩

/-- C10: both normalizers are idempotent on every finite angle. -/
theorem toAngle_idempotent :
    ∀ θ : ℝ, toAngle360 (toAngle360 (some θ)) = toAngle360 (some θ) ∧
      toAngle180 (toAngle180 (some θ)) = toAngle180 (some θ) := by
  intro θ
  constructor
  · rw [toAngle360_some θ]
    exact toAngle360_fixed _ (mod360_nonneg θ) (mod360_lt θ)
  · obtain ⟨b, hb, _, hbl, hbr⟩ := toAngle180_some_bounds θ
    rw [hb]
    exact toAngle180_fixed b hbl hbr

/-- C1: away from the degenerate region each in-plane extractor returns
`degrees (arctan2 second first)` with the fixed per-convention argument
order (Y→Z: atan2(z, y); Z→X: atan2(x, z); X→Y: atan2(y, x)), and each
reads only the two coordinates spanning its rotation plane. -/
theorem fAngle_inplane_formula :
    ∀ p : Point,
      (¬(|p.y| < f_eps ∧ |p.z| < f_eps) →
        fAngleYZ p = some (degrees (arctan2 p.z p.y))) ∧
      (¬(|p.x| < f_eps ∧ |p.z| < f_eps) →
        fAngleZX p = some (degrees (arctan2 p.x p.z))) ∧
      (¬(|p.x| < f_eps ∧ |p.y| < f_eps) →
        fAngleXY p = some (degrees (arctan2 p.y p.x))) ∧
      (∀ q : Point, p.y = q.y → p.z = q.z → fAngleYZ p = fAngleYZ q) ∧
      (∀ q : Point, p.z = q.z → p.x = q.x → fAngleZX p = fAngleZX q) ∧
      (∀ q : Point, p.x = q.x → p.y = q.y → fAngleXY p = fAngleXY q) := by
  intro p
  refine ⟨?_, ?_, ?_, ?_, ?_, ?_⟩
  · intro h
    unfold fAngleYZ
    rw [if_neg h]
  · intro h
    unfold fAngleZX
    rw [if_neg h]
  · intro h
    unfold fAngleXY
    rw [if_neg h]
  · intro q hy hz
    simp only [fAngleYZ, hy, hz]
  · intro q hz hx
    simp only [fAngleZX, hz, hx]
  · intro q hx hy
    simp only [fAngleXY, hx, hy]

/-- C1 witness: at `p = [2, 1, 1, 1]` the tolerance hypotheses hold, the
three in-plane angles are the stated arctangents, and changing the unread
coordinates leaves each extractor's value unchanged. -/
theorem fAngle_inplane_formula_w :
    ¬(|(Point.mk 2 1 1 1).y| < f_eps ∧ |(Point.mk 2 1 1 1).z| < f_eps) ∧
    ¬(|(Point.mk 2 1 1 1).x| < f_eps ∧ |(Point.mk 2 1 1 1).z| < f_eps) ∧
    ¬(|(Point.mk 2 1 1 1).x| < f_eps ∧ |(Point.mk 2 1 1 1).y| < f_eps) ∧
    fAngleYZ (Point.mk 2 1 1 1) = some (degrees (arctan2 1 1)) ∧
    fAngleZX (Point.mk 2 1 1 1) = some (degrees (arctan2 2 1)) ∧
    fAngleXY (Point.mk 2 1 1 1) = some (degrees (arctan2 1 2)) ∧
    fAngleYZ (Point.mk 2 1 1 1) = fAngleYZ (Point.mk 5 1 1 9) ∧
    fAngleZX (Point.mk 2 1 1 1) = fAngleZX (Point.mk 2 7 1 9) ∧
    fAngleXY (Point.mk 2 1 1 1) = fAngleXY (Point.mk 2 1 7 9) := by
  have h1 : ¬(|(Point.mk 2 1 1 1).y| < f_eps ∧ |(Point.mk 2 1 1 1).z| < f_eps) := by
    rw [f_eps]
    norm_num
  have h2 : ¬(|(Point.mk 2 1 1 1).x| < f_eps ∧ |(Point.mk 2 1 1 1).z| < f_eps) := by
    rw [f_eps]
    norm_num
  have h3 : ¬(|(Point.mk 2 1 1 1).x| < f_eps ∧ |(Point.mk 2 1 1 1).y| < f_eps) := by
    rw [f_eps]
    norm_num
  exact ⟨h1, h2, h3,
    (fAngle_inplane_formula (Point.mk 2 1 1 1)).1 h1,
    (fAngle_inplane_formula (Point.mk 2 1 1 1)).2.1 h2,
    (fAngle_inplane_formula (Point.mk 2 1 1 1)).2.2.1 h3,
    (fAngle_inplane_formula (Point.mk 2 1 1 1)).2.2.2.1 (Point.mk 5 1 1 9) rfl rfl,
    (fAngle_inplane_formula (Point.mk 2 1 1 1)).2.2.2.2.1 (Point.mk 2 7 1 9) rfl rfl,
    (fAngle_inplane_formula (Point.mk 2 1 1 1)).2.2.2.2.2 (Point.mk 2 1 7 9) rfl rfl⟩

/-- C2: an in-plane extractor returns the undefined sentinel exactly when
both of its two relevant coordinates are below `f_eps` in absolute value;
at `[0, 0, 0, 1]` all three return the sentinel. -/
theorem fAngle_inplane_none_iff :
    ∀ p : Point,
      (fAngleYZ p = none ↔ |p.y| < f_eps ∧ |p.z| < f_eps) ∧
      (fAngleZX p = none ↔ |p.x| < f_eps ∧ |p.z| < f_eps) ∧
      (fAngleXY p = none ↔ |p.x| < f_eps ∧ |p.y| < f_eps) ∧
      fAngleYZ ⟨0, 0, 0, 1⟩ = none ∧
      fAngleZX ⟨0, 0, 0, 1⟩ = none ∧
      fAngleXY ⟨0, 0, 0, 1⟩ = none := by
  have h00 : |(0 : ℝ)| < f_eps := by
    rw [abs_zero, f_eps]
    norm_num
  intro p
  refine ⟨?_, ?_, ?_, ?_, ?_, ?_⟩
  · by_cases h : |p.y| < f_eps ∧ |p.z| < f_eps <;> simp [fAngleYZ, h]
  · by_cases h : |p.x| < f_eps ∧ |p.z| < f_eps <;> simp [fAngleZX, h]
  · by_cases h : |p.x| < f_eps ∧ |p.y| < f_eps <;> simp [fAngleXY, h]
  · unfold fAngleYZ
    exact if_pos ⟨h00, h00⟩
  · unfold fAngleZX
    exact if_pos ⟨h00, h00⟩
  · unfold fAngleXY
    exact if_pos ⟨h00, h00⟩

lemma degrees_arctan2_bounds (x r : ℝ) (hr : 0 ≤ r) :
    0 ≤ degrees (arctan2 r x) ∧ degrees (arctan2 r x) ≤ 180 := by
  have h1 : 0 ≤ Complex.arg ⟨x, r⟩ := Complex.arg_nonneg_iff.mpr hr
  have h2 : Complex.arg ⟨x, r⟩ ≤ Real.pi := Complex.arg_le_pi _
  unfold degrees arctan2
  constructor
  · exact div_nonneg (mul_nonneg h1 (by norm_num)) Real.pi_pos.le
  · rw [div_le_iff₀ Real.pi_pos]
    linarith

lemma origin_angle : degrees (arctan2 (Real.sqrt ((0:ℝ) ^ 2 + (0:ℝ) ^ 2)) 0) = 0 := by
  unfold arctan2 degrees
  rw [show ((0:ℝ) ^ 2 + (0:ℝ) ^ 2) = 0 by norm_num, Real.sqrt_zero,
    show ((⟨0, 0⟩ : ℂ)) = 0 from Complex.ext rfl rfl, Complex.arg_zero]
  ring

/-- C3: each axis-to-radius extractor is `degrees (arctan2 r axis)` with `r`
the Euclidean norm of the two coordinates orthogonal to the named axis, its
value lies in `[0, 180]`, and the origin yields 0 (plain value, no
sentinel — the result type is ℝ, not `Option ℝ`). -/
theorem fAngle_radius_spec :
    ∀ p : Point,
      fAngleXR p = degrees (arctan2 (Real.sqrt (p.y ^ 2 + p.z ^ 2)) p.x) ∧
      fAngleYR p = degrees (arctan2 (Real.sqrt (p.x ^ 2 + p.z ^ 2)) p.y) ∧
      fAngleZR p = degrees (arctan2 (Real.sqrt (p.x ^ 2 + p.y ^ 2)) p.z) ∧
      (0 ≤ fAngleXR p ∧ fAngleXR p ≤ 180) ∧
      (0 ≤ fAngleYR p ∧ fAngleYR p ≤ 180) ∧
      (0 ≤ fAngleZR p ∧ fAngleZR p ≤ 180) ∧
      (∀ w : ℝ, fAngleXR ⟨0, 0, 0, w⟩ = 0 ∧ fAngleYR ⟨0, 0, 0, w⟩ = 0 ∧
        fAngleZR ⟨0, 0, 0, w⟩ = 0) := by
  intro p
  refine ⟨?_, ?_, ?_, ?_, ?_, ?_, ?_⟩
  · unfold fAngleXR
    rw [add_comm (p.z ^ 2) (p.y ^ 2)]
  · unfold fAngleYR
    rw [add_comm (p.z ^ 2) (p.x ^ 2)]
  · unfold fAngleZR
    rfl
  · exact degrees_arctan2_bounds p.x _ (Real.sqrt_nonneg _)
  · exact degrees_arctan2_bounds p.y _ (Real.sqrt_nonneg _)
  · exact degrees_arctan2_bounds p.z _ (Real.sqrt_nonneg _)
  · exact fun w => ⟨origin_angle, origin_angle, origin_angle⟩

/-- C9: every one of the six angle extractors ignores the `w` component:
two points agreeing on x, y, z get identical results from each. -/
theorem fAngle_ignores_w :
    ∀ p q : Point, p.x = q.x → p.y = q.y → p.z = q.z →
      fAngleYZ p = fAngleYZ q ∧ fAngleZX p = fAngleZX q ∧
      fAngleXY p = fAngleXY q ∧ fAngleXR p = fAngleXR q ∧
      fAngleYR p = fAngleYR q ∧ fAngleZR p = fAngleZR q := by
  intro p q hx hy hz
  refine ⟨?_, ?_, ?_, ?_, ?_, ?_⟩ <;>
    simp only [fAngleYZ, fAngleZX, fAngleXY, fAngleXR, fAngleYR, fAngleZR,
      hx, hy, hz]

/-- C9 witness: `[1, 2, 3, 4]` and `[1, 2, 3, 7]` differ only in `w` and all
six extractors agree on them. -/
theorem fAngle_ignores_w_w :
    (Point.mk 1 2 3 4).x = (Point.mk 1 2 3 7).x ∧
    (Point.mk 1 2 3 4).y = (Point.mk 1 2 3 7).y ∧
    (Point.mk 1 2 3 4).z = (Point.mk 1 2 3 7).z ∧
    (fAngleYZ (Point.mk 1 2 3 4) = fAngleYZ (Point.mk 1 2 3 7) ∧
     fAngleZX (Point.mk 1 2 3 4) = fAngleZX (Point.mk 1 2 3 7) ∧
     fAngleXY (Point.mk 1 2 3 4) = fAngleXY (Point.mk 1 2 3 7) ∧
     fAngleXR (Point.mk 1 2 3 4) = fAngleXR (Point.mk 1 2 3 7) ∧
     fAngleYR (Point.mk 1 2 3 4) = fAngleYR (Point.mk 1 2 3 7) ∧
     fAngleZR (Point.mk 1 2 3 4) = fAngleZR (Point.mk 1 2 3 7)) :=
  ⟨rfl, rfl, rfl,
    fAngle_ignores_w (Point.mk 1 2 3 4) (Point.mk 1 2 3 7) rfl rfl rfl⟩

/-- C7: the rotation builders place `co = cos (radians θ)` and
`si = sin (radians θ)` exactly as documented — Y→Z block `[[co,-si],[si,co]]`
in rows/columns (1,2), Z→X block `[[co,si],[-si,co]]` in rows/columns (0,2),
X→Y block `[[co,-si],[si,co]]` in rows/columns (0,1) — with identity in the
rotation axis's row and column; `Trans` is the identity with translation
column `(dx, dy, dz, 1)`; and every built matrix has bottom row
`[0, 0, 0, 1]`. -/
theorem matrix_builders_spec :
    ∀ θ dx dy dz : ℝ,
      (∀ i j : Fin 4, Trans dx dy dz i j =
        if j = 3 then ![dx, dy, dz, 1] i else if i = j then 1 else 0) ∧
      Rot_yz θ 1 1 = Real.cos (radians θ) ∧
      Rot_yz θ 1 2 = -Real.sin (radians θ) ∧
      Rot_yz θ 2 1 = Real.sin (radians θ) ∧
      Rot_yz θ 2 2 = Real.cos (radians θ) ∧
      (∀ j : Fin 4, Rot_yz θ 0 j = if j = 0 then 1 else 0) ∧
      (∀ i : Fin 4, Rot_yz θ i 0 = if i = 0 then 1 else 0) ∧
      Rot_zx θ 0 0 = Real.cos (radians θ) ∧
      Rot_zx θ 0 2 = Real.sin (radians θ) ∧
      Rot_zx θ 2 0 = -Real.sin (radians θ) ∧
      Rot_zx θ 2 2 = Real.cos (radians θ) ∧
      (∀ j : Fin 4, Rot_zx θ 1 j = if j = 1 then 1 else 0) ∧
      (∀ i : Fin 4, Rot_zx θ i 1 = if i = 1 then 1 else 0) ∧
      Rot_xy θ 0 0 = Real.cos (radians θ) ∧
      Rot_xy θ 0 1 = -Real.sin (radians θ) ∧
      Rot_xy θ 1 0 = Real.sin (radians θ) ∧
      Rot_xy θ 1 1 = Real.cos (radians θ) ∧
      (∀ j : Fin 4, Rot_xy θ 2 j = if j = 2 then 1 else 0) ∧
      (∀ i : Fin 4, Rot_xy θ i 2 = if i = 2 then 1 else 0) ∧
      (∀ j : Fin 4, Trans dx dy dz 3 j = if j = 3 then 1 else 0) ∧
      (∀ j : Fin 4, Rot_yz θ 3 j = if j = 3 then 1 else 0) ∧
      (∀ j : Fin 4, Rot_zx θ 3 j = if j = 3 then 1 else 0) ∧
      (∀ j : Fin 4, Rot_xy θ 3 j = if j = 3 then 1 else 0) := by
  intro θ dx dy dz
  refine ⟨fun i j => by fin_cases i <;> fin_cases j <;> rfl,
    rfl, rfl, rfl, rfl,
    fun j => by fin_cases j <;> rfl,
    fun i => by fin_cases i <;> rfl,
    rfl, rfl, rfl, rfl,
    fun j => by fin_cases j <;> rfl,
    fun i => by fin_cases i <;> rfl,
    rfl, rfl, rfl, rfl,
    fun j => by fin_cases j <;> rfl,
    fun i => by fin_cases i <;> rfl,
    fun j => by fin_cases j <;> rfl,
    fun j => by fin_cases j <;> rfl,
    fun j => by fin_cases j <;> rfl,
    fun j => by fin_cases j <;> rfl⟩

/-- C8: each batch extractor and batch normalizer maps its list elementwise
with the corresponding scalar function: same length, the i-th output is the
scalar function of the i-th input (so one sentinel slot cannot affect its
siblings), and the empty list maps to the empty list. -/
theorem batch_maps_spec :
    ∀ (l : List Point) (al : List (Option ℝ)) (i : ℕ),
      ((fAngleArrYZ l).length = l.length ∧
        (fAngleArrYZ l)[i]? = (l[i]?).map fAngleYZ ∧ fAngleArrYZ [] = []) ∧
      ((fAngleArrZX l).length = l.length ∧
        (fAngleArrZX l)[i]? = (l[i]?).map fAngleZX ∧ fAngleArrZX [] = []) ∧
      ((fAngleArrXY l).length = l.length ∧
        (fAngleArrXY l)[i]? = (l[i]?).map fAngleXY ∧ fAngleArrXY [] = []) ∧
      ((fAngleArrXR l).length = l.length ∧
        (fAngleArrXR l)[i]? = (l[i]?).map fAngleXR ∧ fAngleArrXR [] = []) ∧
      ((fAngleArrYR l).length = l.length ∧
        (fAngleArrYR l)[i]? = (l[i]?).map fAngleYR ∧ fAngleArrYR [] = []) ∧
      ((fAngleArrZR l).length = l.length ∧
        (fAngleArrZR l)[i]? = (l[i]?).map fAngleZR ∧ fAngleArrZR [] = []) ∧
      ((toAngleArr360 al).length = al.length ∧
        (toAngleArr360 al)[i]? = (al[i]?).map toAngle360 ∧
        toAngleArr360 [] = []) ∧
      ((toAngleArr180 al).length = al.length ∧
        (toAngleArr180 al)[i]? = (al[i]?).map toAngle180 ∧
        toAngleArr180 [] = []) := by
  intro l al i
  refine ⟨⟨?_, ?_, rfl⟩, ⟨?_, ?_, rfl⟩, ⟨?_, ?_, rfl⟩, ⟨?_, ?_, rfl⟩,
    ⟨?_, ?_, rfl⟩, ⟨?_, ?_, rfl⟩, ⟨?_, ?_, rfl⟩, ⟨?_, ?_, rfl⟩⟩ <;>
    simp [fAngleArrYZ, fAngleArrZX, fAngleArrXY, fAngleArrXR, fAngleArrYR,
      fAngleArrZR, toAngleArr360, toAngleArr180, List.getElem?_map]

end LinAlg
